import Mathlib

/-!
Verification of the core change-tracking and event machinery of
`src/launcher/vendor/remi/gui.py` (a vendored copy of the remi GUI
library).  The development shallowly embeds:

* `_EventDictionary` — a dict bumping an internal version counter and
  firing `onchange()` on every actual mutation (`EventDictionary` below,
  an association list plus `version`/`lastversion` counters; every
  mutating operation also returns a `Bool` that records whether
  `onchange()` fired on that call);
* `ClassEventConnector` — the wrapper installed over methods flagged as
  events (`ClassEventConnector` below; Python tuples of payload /
  userdata values are modelled as `List`s);
* `Tag` — the tree node owning three event dictionaries and cached
  serialization state, together with its mutation protocol
  (`_need_update`) and the incremental `repr` renderer.

Python object graphs are modelled with value semantics: the `children`
dictionary stores child tags by value, `parent` back-references are
implicit (an operation on a node nested inside a tree is performed with
`modifyAt`, which rebuilds the tree along the access path — faithful
because the upward `_need_update()` propagation walk performs no state
change on ancestors, it only recurses to the parent).  The number of
propagation calls that reach a node's parent, which Python makes as
actual calls, is made observable through the `countingStep` wrapper.
-/

set_option autoImplicit false
set_option maxRecDepth 8192

universe u

/-! ## Association list primitives (Python `dict` contents, insertion ordered) -/

/-- First value stored under key `k`, like Python `d[k]` / `k in d`. -/
def assocGet {V : Type u} : List (String × V) → String → Option V
  | [], _ => none
  | (k', v) :: rest, k => if k' = k then some v else assocGet rest k

/-- Python `d[k] = v` on the underlying entries: overwrite in place (first
occurrence keeps its position), append at the end when the key is new. -/
def assocSet {V : Type u} : List (String × V) → String → V → List (String × V)
  | [], k, v => [(k, v)]
  | (k', v') :: rest, k, v =>
      if k' = k then (k, v) :: rest else (k', v') :: assocSet rest k v

/-- Python `del d[k]` on the underlying entries: drop the first occurrence. -/
def assocRemove {V : Type u} : List (String × V) → String → List (String × V)
  | [], _ => []
  | (k', v') :: rest, k =>
      if k' = k then rest else (k', v') :: assocRemove rest k

/-! ## `_EventDictionary` -/

/-- Model of `_EventDictionary`: the stored entries plus the
`__version__` / `__lastversion__` counters.  `onchange()` increments
`version` and is fired by every mutating method that actually changes
the content (`__setitem__` with a different value, `__delitem__`/`pop`
on a present key, and `clear`/`update` unconditionally). -/
structure EventDictionary (V : Type u) where
  entries : List (String × V)
  version : Nat
  lastversion : Nat
  deriving Repr, DecidableEq

/-- `_EventDictionary.__setitem__`: equal-value overwrite returns without
mutation or notification; otherwise store and fire `onchange()`.  The
returned `Bool` records whether `onchange()` fired. -/
def EventDictionary.setItem {V : Type u} [DecidableEq V]
    (d : EventDictionary V) (k : String) (v : V) : EventDictionary V × Bool :=
  match assocGet d.entries k with
  | some w =>
      if w = v then (d, false)
      else (⟨assocSet d.entries k v, d.version + 1, d.lastversion⟩, true)
  | none => (⟨assocSet d.entries k v, d.version + 1, d.lastversion⟩, true)

/-- `_EventDictionary.__delitem__`: silent no-op on a missing key,
otherwise remove and fire `onchange()`. -/
def EventDictionary.delItem {V : Type u}
    (d : EventDictionary V) (k : String) : EventDictionary V × Bool :=
  if (assocGet d.entries k).isSome then
    (⟨assocRemove d.entries k, d.version + 1, d.lastversion⟩, true)
  else (d, false)

/-- `_EventDictionary.pop`: same silent no-op on a missing key, removal
plus `onchange()` on a present one (the returned Python value is not
modelled). -/
def EventDictionary.popItem {V : Type u}
    (d : EventDictionary V) (k : String) : EventDictionary V × Bool :=
  if (assocGet d.entries k).isSome then
    (⟨assocRemove d.entries k, d.version + 1, d.lastversion⟩, true)
  else (d, false)

/-- `_EventDictionary.clear`: always fires `onchange()`. -/
def EventDictionary.clearAll {V : Type u}
    (d : EventDictionary V) : EventDictionary V × Bool :=
  (⟨[], d.version + 1, d.lastversion⟩, true)

/-- `_EventDictionary.update`: write every entry of `l` in order, then
fire `onchange()` unconditionally (Python calls it even for an empty
argument). -/
def EventDictionary.updateAll {V : Type u}
    (d : EventDictionary V) (l : List (String × V)) : EventDictionary V × Bool :=
  (⟨l.foldl (fun es p => assocSet es p.1 p.2) d.entries, d.version + 1, d.lastversion⟩, true)

/-- `_EventDictionary.ischanged`. -/
def EventDictionary.ischanged {V : Type u} (d : EventDictionary V) : Bool :=
  d.version != d.lastversion

/-- `_EventDictionary.align_version`. -/
def EventDictionary.alignVersion {V : Type u} (d : EventDictionary V) : EventDictionary V :=
  ⟨d.entries, d.version, d.version⟩

/-! ## `ClassEventConnector` -/

/-- Model of `ClassEventConnector`.  The bound method's positional
arguments and its returned payload tuple are modelled as `List V`; a
callback returns an `R`.  `callback = none` models the initial
`self.callback = None`.  (The `_js_code` attribute installation that
`connect` performs for js-decorated methods writes into the owner tag's
attributes; it is not needed by the claims about `__call__` and is not
modelled on this standalone connector.) -/
structure ClassEventConnector (Owner : Type u) (V R : Type u) where
  event_source_instance : Owner
  event_name : String
  event_method_bound : List V → List V
  callback : Option (Owner → List V → R)
  userdata : List V

/-- `ClassEventConnector.connect`: store the callback and the fixed
userdata arguments (silently replacing any previous listener). -/
def ClassEventConnector.connect {Owner V R : Type u}
    (c : ClassEventConnector Owner V R) (cb : Owner → List V → R) (ud : List V) :
    ClassEventConnector Owner V R :=
  { c with callback := some cb, userdata := ud }

/-- `ClassEventConnector.__call__`: call the bound method; with no
callback return its result unchanged (`Sum.inl`); otherwise call the
callback on the owner instance and either the payload concatenated with
the userdata (non-empty payload tuple) or the userdata alone (empty
payload tuple — Python's `if not callback_params`). -/
def ClassEventConnector.callEvent {Owner V R : Type u}
    (c : ClassEventConnector Owner V R) (args : List V) : Sum (List V) R :=
  let callback_params := c.event_method_bound args
  match c.callback with
  | none => Sum.inl callback_params
  | some cb =>
      let ps := if callback_params.isEmpty then c.userdata
                else callback_params ++ c.userdata
      Sum.inr (cb c.event_source_instance ps)

/-! ## `Tag` : the tree node -/

/-- The scalar state of a `Tag`: its HTML element type, the version
counters of the `children` event dictionary (the children's entries
themselves live next to the core in the `Tag` constructor),
the `attributes` and `style` event dictionaries (attribute values may be
Python `None`, hence `Option String`), the `_render_children_list`,
`ignore_update`, `_classes`, the cached `_repr_attributes` string and
the cached `_backup_repr` markup, and the Widget-level
`layout_orientation` flag (`True` = horizontal). -/
structure TagCore where
  typeName : String
  childVersion : Nat
  childLastVersion : Nat
  attributes : EventDictionary (Option String)
  style : EventDictionary String
  renderList : List String
  ignoreUpdate : Bool
  classes : List String
  reprAttributes : String
  backupRepr : String
  layoutHorizontal : Bool

mutual
/-- A `Tag` value: the scalar core plus the entries of its `children`
event dictionary. -/
inductive Tag : Type where
  | mk (core : TagCore) (children : ChildMap) : Tag
/-- The insertion-ordered entries of a `children` dictionary. -/
inductive ChildMap : Type where
  | nil : ChildMap
  | cons (key : String) (val : Child) (rest : ChildMap) : ChildMap
/-- A child value: a nested `Tag` or a raw string. -/
inductive Child : Type where
  | node (t : Tag) : Child
  | text (s : String) : Child
end

def Tag.core : Tag → TagCore
  | .mk c _ => c

def Tag.children : Tag → ChildMap
  | .mk _ ch => ch

/-- Rebuild a tag with an updated core. -/
def Tag.withCore (t : Tag) (f : TagCore → TagCore) : Tag :=
  .mk (f t.core) t.children

/-- Rebuild a tag with an updated children map. -/
def Tag.withChildren (t : Tag) (f : ChildMap → ChildMap) : Tag :=
  .mk t.core (f t.children)

/-- First value stored under `k` in a children dictionary. -/
def childLookup : ChildMap → String → Option Child
  | .nil, _ => none
  | .cons k' v rest, k => if k' = k then some v else childLookup rest k

/-- Replace the value at the first occurrence of `k`; no-op when absent
(Python mutates the stored child object in place: the dictionary keeps
its key set). -/
def childUpdate : ChildMap → String → Child → ChildMap
  | .nil, _, _ => .nil
  | .cons k' v rest, k, c =>
      if k' = k then .cons k' c rest else .cons k' v (childUpdate rest k c)

/-- Python `d[k] = v` on the children entries: overwrite in place or
append at the end. -/
def childSet : ChildMap → String → Child → ChildMap
  | .nil, k, c => .cons k c .nil
  | .cons k' v rest, k, c =>
      if k' = k then .cons k' c rest else .cons k' v (childSet rest k c)

/-- The keys of a children dictionary, in order. -/
def childKeys : ChildMap → List String
  | .nil => []
  | .cons k _ rest => k :: childKeys rest

/-- Python `key in self.children`. -/
def childHasKey (m : ChildMap) (k : String) : Bool :=
  (childLookup m k).isSome

/-- Truthiness of the children dictionary (`if emitter:`). -/
def childNonempty : ChildMap → Bool
  | .nil => false
  | .cons _ _ _ => true

/-- Python `==` between stored children: raw strings compare by value;
`Tag` instances define no `__eq__`, so they compare by object identity —
in this value model every two tag values are taken to stand for distinct
objects, hence the comparison is `false` (re-inserting the very same
object is not representable). -/
def childEq : Child → Child → Bool
  | .text a, .text b => a = b
  | _, _ => false

/-- `jsonize(d)`: `';'.join(k + ':' + v for each entry)`. -/
def jsonize (entries : List (String × String)) : String :=
  String.intercalate ";" (entries.map (fun p => p.1 ++ ":" ++ p.2))

/-- The flattened attribute string computed by `Tag._need_update` when an
emitter is passed: a copy of `attributes` with `style` set to
`jsonize(self.style)`, serialized as space-separated `k="v"` items
(`k` alone when the value is Python `None`). -/
def computeReprAttributes (attrs : List (String × Option String))
    (styleEntries : List (String × String)) : String :=
  let tmp := assocSet attrs "style" (some (jsonize styleEntries))
  String.intercalate " "
    (tmp.map (fun p =>
      match p.2 with
      | some v => p.1 ++ "=\"" ++ v ++ "\""
      | none => p.1))

/-- The local effect of `Tag._need_update(emitter)`: when the emitter
dictionary tests true (is non-empty) the cached `_repr_attributes` is
recomputed from the current attributes and style; otherwise nothing
changes on this node.  The upward `parent._need_update()` walk performs
no state change on any ancestor (it is observable only as a call, see
`countingStep`). -/
def Tag.needUpdateLocal (t : Tag) (emitterNonempty : Bool) : Tag :=
  if emitterNonempty then
    t.withCore (fun c =>
      { c with reprAttributes := computeReprAttributes c.attributes.entries c.style.entries })
  else t

/-- `Tag.identifier`, i.e. `self.attributes['id']` (all tags built by
`tagNew` have it; `""` stands for the Python `KeyError` on a tag that
never got one). -/
def Tag.identifier (t : Tag) : String :=
  match assocGet t.core.attributes.entries "id" with
  | some (some s) => s
  | _ => ""

/-- `self.attributes[k] = v` on a tag: run the dictionary `__setitem__`;
when it fires `onchange()`, the connector calls
`self._need_update(emitter = attributes)`, whose truthiness is the
non-emptiness of the dictionary after the mutation.  Returns the tag and
whether `onchange()` fired. -/
def Tag.setAttr (t : Tag) (k : String) (v : Option String) : Tag × Bool :=
  let r := t.core.attributes.setItem k v
  let t' := t.withCore (fun c => { c with attributes := r.1 })
  (if r.2 then t'.needUpdateLocal (!r.1.entries.isEmpty) else t', r.2)

/-- `del self.attributes[k]` on a tag. -/
def Tag.delAttr (t : Tag) (k : String) : Tag × Bool :=
  let r := t.core.attributes.delItem k
  let t' := t.withCore (fun c => { c with attributes := r.1 })
  (if r.2 then t'.needUpdateLocal (!r.1.entries.isEmpty) else t', r.2)

/-- `self.attributes.clear()` on a tag. -/
def Tag.clearAttrs (t : Tag) : Tag × Bool :=
  let r := t.core.attributes.clearAll
  let t' := t.withCore (fun c => { c with attributes := r.1 })
  (if r.2 then t'.needUpdateLocal (!r.1.entries.isEmpty) else t', r.2)

/-- `self.attributes.update(l)` on a tag. -/
def Tag.updateAttrs (t : Tag) (l : List (String × Option String)) : Tag × Bool :=
  let r := t.core.attributes.updateAll l
  let t' := t.withCore (fun c => { c with attributes := r.1 })
  (if r.2 then t'.needUpdateLocal (!r.1.entries.isEmpty) else t', r.2)

/-- `self.style[k] = v` on a tag. -/
def Tag.setStyle (t : Tag) (k : String) (v : String) : Tag × Bool :=
  let r := t.core.style.setItem k v
  let t' := t.withCore (fun c => { c with style := r.1 })
  (if r.2 then t'.needUpdateLocal (!r.1.entries.isEmpty) else t', r.2)

/-- `del self.style[k]` on a tag. -/
def Tag.delStyle (t : Tag) (k : String) : Tag × Bool :=
  let r := t.core.style.delItem k
  let t' := t.withCore (fun c => { c with style := r.1 })
  (if r.2 then t'.needUpdateLocal (!r.1.entries.isEmpty) else t', r.2)

/-- `self.style.clear()` on a tag. -/
def Tag.clearStyle (t : Tag) : Tag × Bool :=
  let r := t.core.style.clearAll
  let t' := t.withCore (fun c => { c with style := r.1 })
  (if r.2 then t'.needUpdateLocal (!r.1.entries.isEmpty) else t', r.2)

/-- `self.children[key] = value` on a tag: the `_EventDictionary`
equal-value suppression (`childEq`), then store, bump the children
version, and run `_need_update(emitter = children)`. -/
def Tag.setChild (t : Tag) (k : String) (c : Child) : Tag × Bool :=
  match childLookup t.children k with
  | some old =>
      if childEq old c then (t, false)
      else
        let ch := childSet t.children k c
        let t' := Tag.mk { t.core with childVersion := t.core.childVersion + 1 } ch
        (t'.needUpdateLocal (childNonempty ch), true)
  | none =>
      let ch := childSet t.children k c
      let t' := Tag.mk { t.core with childVersion := t.core.childVersion + 1 } ch
      (t'.needUpdateLocal (childNonempty ch), true)

/-- `Tag.disable_refresh`. -/
def Tag.disableRefresh (t : Tag) : Tag :=
  t.withCore (fun c => { c with ignoreUpdate := true })

/-- `Tag.enable_refresh`. -/
def Tag.enableRefresh (t : Tag) : Tag :=
  t.withCore (fun c => { c with ignoreUpdate := false })

/-- `Tag.add_child(key, value)` for a single (non-iterable) value.  A
`Tag` value first gets `data-parent-widget` set to the owner's
identifier (a raw string has no `attributes`, so it is stored as is);
the key's old render position is dropped when the key is already a
child, the key is appended at the end of `_render_children_list`, and
finally `self.children[key] = value` runs.  (The `value._parent = self`
back-reference is implicit in the value model.) -/
def Tag.addChild (t : Tag) (key : String) (c : Child) : Tag :=
  let c' :=
    match c with
    | .node ct => Child.node (ct.setAttr "data-parent-widget" (some t.identifier)).1
    | .text s => Child.text s
  let rl := if childHasKey t.children key then t.core.renderList.erase key
            else t.core.renderList
  let t1 := t.withCore (fun co => { co with renderList := rl ++ [key] })
  (t1.setChild key c').1

/-- `Tag.__init__(_type = typeName, _class = klass)` with identifier
`ident` standing for `str(id(self))`: fresh dictionaries, then
`attributes['id'] = ident`, then `attributes.update({})` (the default
argument — it still fires `onchange()`), then `add_class(klass)` writes
`attributes['class']`, and finally `_backup_repr = ''`.  The process
registry (`runtimeInstances`) is external and not modelled. -/
def tagNew (ident typeName klass : String) : Tag :=
  let t0 : Tag := Tag.mk
    { typeName := typeName, childVersion := 0, childLastVersion := 0,
      attributes := ⟨[], 0, 0⟩, style := ⟨[], 0, 0⟩, renderList := [],
      ignoreUpdate := false, classes := [], reprAttributes := "",
      backupRepr := "", layoutHorizontal := false } ChildMap.nil
  let t1 := (t0.setAttr "id" (some ident)).1
  let t2 := (t1.updateAttrs []).1
  let t3 := t2.withCore (fun c => { c with classes := [klass] })
  let t4 := (t3.setAttr "class"
    (some (if ([klass] : List String).isEmpty then ""
           else String.intercalate " " [klass]))).1
  t4.withCore (fun c => { c with backupRepr := "" })

/-- `Tag._ischanged()` over the scalar core. -/
def tagIschangedCore (c : TagCore) : Bool :=
  (c.childVersion != c.childLastVersion) || c.attributes.ischanged || c.style.ischanged

/-- Apply `f` to the tag reached from `t` along the render keys in
`path` (Python simply holds a reference to the nested node and mutates
it; the upward propagation this triggers changes no ancestor state, so
rebuilding along the path is a faithful model). -/
def modifyAt : Tag → List String → (Tag → Tag) → Tag
  | t, [], f => f t
  | t, k :: ks, f =>
      t.withChildren (fun ch =>
        match childLookup ch k with
        | some (.node ct) => childUpdate ch k (.node (modifyAt ct ks f))
        | _ => ch)

/-! ## `Tag.repr` : the incremental renderer

Python's `repr(self, changed_widgets)` walks `_render_children_list`,
looking each key up in `self.children` and rendering `Tag` children
recursively into a local accumulator.  The dirty accumulator is keyed by
node objects; here a node is named by its access path (the list of
render keys from the node the pass started at).  Rendering mutates the
visited child objects in place; since the children dictionary itself is
never restructured during a pass, the model looks keys up in the
original dictionary and applies in-place updates to an accumulated copy.
A `fuel` argument bounds the recursion depth (`Tag.repr fuel` with
`fuel` larger than the visited depth is exact; Python needs no fuel
because trees built through `add_child` are finite and acyclic). -/

/-- The child loop of `Tag.repr`: for each render key in order, look the
key up in the original children dictionary; recursively render a `Tag`
child with `rend` (replacing the stored object by its updated state) and
concatenate its markup; concatenate a raw string child verbatim.  Dirty
entries coming back from a child under key `k` get their paths prefixed
with `k`.  A key missing from the dictionary is skipped (Python would
raise `KeyError`; the class invariant keeps every render key present). -/
def reprKeys (rend : Tag → Tag × String × List (List String × String)) :
    List String → ChildMap → ChildMap → ChildMap × String × List (List String × String)
  | [], _, acc => (acc, "", [])
  | k :: ks, orig, acc =>
      match childLookup orig k with
      | some (.node ct) =>
          let r := rend ct
          let rest := reprKeys rend ks orig (childUpdate acc k (.node r.1))
          (rest.1, r.2.1 ++ rest.2.1,
            (r.2.2.map (fun pr => (k :: pr.1, pr.2))) ++ rest.2.2)
      | some (.text s) =>
          let rest := reprKeys rend ks orig acc
          (rest.1, s ++ rest.2.1, rest.2.2)
      | none => reprKeys rend ks orig acc

/-- `Tag.repr`: render the children, then recompute `_backup_repr`
(`<type reprAttributes>innerHTML</type>`) when the node itself changed
or some descendant produced a dirty record; when the node itself
changed, record only the node (path `[]`) in the returned dirty map,
discard the descendants' records, and align all three version counters
(`_set_updated`); otherwise pass the descendants' records through.  The
returned string is the (possibly cached) `_backup_repr`. -/
def Tag.repr : Nat → Tag → Tag × String × List (List String × String)
  | 0, t => (t, "", [])
  | n + 1, t =>
      let r := reprKeys (Tag.repr n) t.core.renderList t.children t.children
      let changed := tagIschangedCore t.core
      let backup :=
        if changed || !r.2.2.isEmpty then
          "<" ++ t.core.typeName ++ " " ++ t.core.reprAttributes ++ ">" ++
            r.2.1 ++ "</" ++ t.core.typeName ++ ">"
        else t.core.backupRepr
      if changed then
        (Tag.mk
          { t.core with
              backupRepr := backup,
              childLastVersion := t.core.childVersion,
              attributes := t.core.attributes.alignVersion,
              style := t.core.style.alignVersion } r.1,
          backup, [([], backup)])
      else
        (Tag.mk { t.core with backupRepr := backup } r.1, backup, r.2.2)

/-- Fuel adequacy: `reprComplete n t` holds when `Tag.repr n t` has
enough fuel to visit the whole render-reachable part of `t`. -/
def reprComplete : Nat → Tag → Bool
  | 0, _ => false
  | n + 1, t =>
      t.core.renderList.all (fun k =>
        match childLookup t.children k with
        | some (.node ct) => reprComplete n ct
        | _ => true)

/-- All render-visited nodes of `t` are clean: the node's own three maps
are aligned and every `Tag` child reachable through a render key is
recursively in the same state. -/
inductive VisitedClean : Tag → Prop where
  | intro (core : TagCore) (children : ChildMap)
      (hself : tagIschangedCore core = false)
      (hkids : ∀ k ct, k ∈ core.renderList →
        childLookup children k = some (.node ct) → VisitedClean ct) :
      VisitedClean (.mk core children)

/-! ## Observing upward propagation -/

/-- Run one tag mutation inside a `(tag, parentCalls)` state:
`_need_update` reaches the parent (one call) exactly when the mutation
fired `onchange()`, `ignore_update` is off, and the node has a parent. -/
def countingStep (hasParent : Bool) (op : Tag → Tag × Bool) (s : Tag × Nat) : Tag × Nat :=
  let r := op s.1
  (r.1, s.2 + (if r.2 && !s.1.core.ignoreUpdate && hasParent then 1 else 0))

/-! ## `Widget.append` vs `Tag.add_child` value handling -/

/-- A single (non-iterable) Python value passed to `add_child`/`append`:
a `Tag`/`Widget` instance or a raw string. -/
inductive AddVal : Type where
  | tagv (t : Tag) : AddVal
  | strv (s : String) : AddVal

/-- `Tag.add_child(key, value)` on a single value: both tags and raw
strings are accepted (`add_child` performs no type check on
non-iterable values). -/
def Tag.addChildVal (t : Tag) (key : String) (v : AddVal) : Tag :=
  match v with
  | .tagv ct => t.addChild key (.node ct)
  | .strv s => t.addChild key (.text s)

/-- The `float` fix-up `Widget.append` applies to the newly appended
child when the container lays out horizontally: set the child's
`style['float']` to `'left'` unless it is already `'none'`.  The child
object is mutated in place, so the parent's children dictionary is not
restructured (`childUpdate`). -/
def appendFloatFix (t : Tag) (k : String) : Tag :=
  match childLookup t.children k with
  | some (.node ct) =>
      let skip : Bool := match assocGet ct.core.style.entries "float" with
        | some fv => fv = "none"
        | none => false
      if skip then t
      else t.withChildren (fun ch =>
        childUpdate ch k (.node (ct.setStyle "float" "left").1))
  | _ => t

/-- `Widget.append(value, key)` on a single value: a non-`Widget` value
raises `ValueError` before any mutation (the tag is returned unchanged
next to the error); a `Widget` value is added under `key` (or its own
identifier when `key` is `''`) and the horizontal-layout float fix-up is
applied.  The second component carries the returned key or the raised
error. -/
def Tag.appendVal (t : Tag) (v : AddVal) (key : String) : Tag × Except String String :=
  match v with
  | .strv _ =>
      (t, Except.error "value should be a Widget (otherwise use add_child(key,other)")
  | .tagv ct =>
      let k := if key = "" then ct.identifier else key
      let t1 := t.addChild k (.node ct)
      let t2 := if t1.core.layoutHorizontal then appendFloatFix t1 k else t1
      (t2, Except.ok k)

/-! ## Paths and the ancestor-freeness property -/

/-- `pathLe p q`: the path `p` leads to an ancestor-or-self of the node
at path `q` (`p` is an initial segment of `q`). -/
def pathLe : List String → List String → Bool
  | [], _ => true
  | _ :: _, [] => false
  | a :: x, b :: y => a = b && pathLe x y

/-- A dirty map never holds both a node and a strict ancestor of that
node: any two recorded paths in the ancestor relation coincide. -/
def ancestorFree (l : List (List String × String)) : Prop :=
  ∀ p s q r, (p, s) ∈ l → (q, r) ∈ l → pathLe p q = true → p = q

/-! ## Concrete scenario trees -/

/-- Substring test used to state that a markup string reflects an
attribute assignment. -/
def strHasSub (hay pat : String) : Bool :=
  go hay.toList pat.toList
where
  starts : List Char → List Char → Bool
    | _, [] => true
    | [], _ :: _ => false
    | a :: x, b :: y => a = b && starts x y
  go : List Char → List Char → Bool
    | [], pat => starts [] pat
    | a :: x, pat => starts (a :: x) pat || go x pat

/-- Scenario C5: leaf `A`, middle node `P` holding `A` under render key
`"a"`, root `R` holding `P` under render key `"p"`. -/
def c5Root : Tag :=
  let a := tagNew "A" "div" "Tag"
  let p := (tagNew "P" "div" "Tag").addChild "a" (.node a)
  (tagNew "R" "div" "Tag").addChild "p" (.node p)

/-- Scenario C5 after `A.attributes['x'] = '1'` (performed through the
live reference to the nested node). -/
def c5Mutated : Tag :=
  modifyAt c5Root ["p", "a"] (fun a => (a.setAttr "x" (some "1")).1)

/-- The identifier of the tag stored as child `k`, when there is one. -/
def childIdentAt (t : Tag) (k : String) : Option String :=
  match childLookup t.children k with
  | some (.node ct) => some ct.identifier
  | _ => none

/-- The raw string stored as child `k`, when there is one. -/
def childTextAt (t : Tag) (k : String) : Option String :=
  match childLookup t.children k with
  | some (.text s) => some s
  | _ => none

/-- The class invariant tying `_render_children_list` to the `children`
dictionary: every render key is a child key and vice versa, and the
render list holds no duplicates. -/
def WFchildren (t : Tag) : Prop :=
  (∀ k ∈ t.core.renderList, childHasKey t.children k = true) ∧
  (∀ k ∈ childKeys t.children, k ∈ t.core.renderList) ∧
  t.core.renderList.Nodup

instance (t : Tag) : Decidable (WFchildren t) := by
  unfold WFchildren
  infer_instance

/-- Scenario C6: root `R`, child `A` added under key `"a"`, then a
different child `B` added under the same key `"a"`. -/
def c6Tree : Tag :=
  ((tagNew "R" "div" "Tag").addChild "a" (.node (tagNew "A" "div" "Tag"))).addChild
    "a" (.node (tagNew "B" "div" "Tag"))

/-- Scenario C7, step 0: `A.disable_refresh()`; the propagation counter
(calls of `_need_update` reaching `A`'s parent) starts at `0`. -/
def c7State0 (a : Tag) : Tag × Nat := (a.disableRefresh, 0)

/-- Scenario C7, step 1: first style mutation while refresh is off. -/
def c7State1 (a : Tag) (k1 v1 : String) : Tag × Nat :=
  countingStep true (fun t => t.setStyle k1 v1) (c7State0 a)

/-- Scenario C7, step 2: second style mutation while refresh is off. -/
def c7State2 (a : Tag) (k1 v1 k2 v2 : String) : Tag × Nat :=
  countingStep true (fun t => t.setStyle k2 v2) (c7State1 a k1 v1)

/-- Scenario C7, step 3: third style mutation while refresh is off. -/
def c7State3 (a : Tag) (k1 v1 k2 v2 k3 v3 : String) : Tag × Nat :=
  countingStep true (fun t => t.setStyle k3 v3) (c7State2 a k1 v1 k2 v2)

/-- Scenario C7, step 4: `A.enable_refresh()`, then one attribute
mutation. -/
def c7State4 (a : Tag) (k1 v1 k2 v2 k3 v3 ka va : String) : Tag × Nat :=
  countingStep true (fun t => t.setAttr ka (some va))
    ((c7State3 a k1 v1 k2 v2 k3 v3).1.enableRefresh, (c7State3 a k1 v1 k2 v2 k3 v3).2)

/-! ## Basic lemmas -/

@[simp] theorem Tag.core_mk (c : TagCore) (ch : ChildMap) : (Tag.mk c ch).core = c := rfl

@[simp] theorem Tag.children_mk (c : TagCore) (ch : ChildMap) : (Tag.mk c ch).children = ch := rfl

@[simp] theorem Tag.children_withCore (t : Tag) (f : TagCore → TagCore) :
    (t.withCore f).children = t.children := rfl

@[simp] theorem Tag.core_withCore (t : Tag) (f : TagCore → TagCore) :
    (t.withCore f).core = f t.core := rfl

theorem assocGet_assocSet_self {V : Type u} (l : List (String × V)) (k : String) (v : V) :
    assocGet (assocSet l k v) k = some v := by
  induction l with
  | nil => simp [assocSet, assocGet]
  | cons p rest ih =>
      by_cases h : p.1 = k
      · simp [assocSet, assocGet, h]
      · simp [assocSet, assocGet, h, ih]

theorem childLookup_childSet_self :
    ∀ (m : ChildMap) (k : String) (c : Child), childLookup (childSet m k c) k = some c
  | .nil, k, c => by simp [childSet, childLookup]
  | .cons k' v rest, k, c => by
      by_cases h : k' = k
      · simp [childSet, childLookup, h]
      · simp [childSet, childLookup, h, childLookup_childSet_self rest k c]

theorem children_needUpdateLocal (t : Tag) (b : Bool) :
    (t.needUpdateLocal b).children = t.children := by
  unfold Tag.needUpdateLocal
  split <;> rfl

/-- `setItem` on an already-present equal value is the recorded no-op. -/
theorem setItem_present_noop {V : Type u} [DecidableEq V]
    (d : EventDictionary V) (k : String) (v : V)
    (h : assocGet d.entries k = some v) : d.setItem k v = (d, false) := by
  unfold EventDictionary.setItem
  simp [h]

/-- After a `setChild` storing a raw string, that string is the stored
child (covering both the equal-value-suppressed and the written case). -/
theorem childLookup_setChild_text (t : Tag) (k s : String) :
    childLookup (t.setChild k (.text s)).1.children k = some (.text s) := by
  unfold Tag.setChild
  cases h : childLookup t.children k with
  | none =>
      simpa [h, children_needUpdateLocal] using
        childLookup_childSet_self t.children k (.text s)
  | some old =>
      cases old with
      | node ct =>
          simpa [h, childEq, children_needUpdateLocal] using
            childLookup_childSet_self t.children k (.text s)
      | text a =>
          by_cases ha : a = s
          · subst ha
            simp [h, childEq]
          · simpa [h, childEq, ha, children_needUpdateLocal] using
              childLookup_childSet_self t.children k (.text s)

/-! ## Claim theorems -/

/-- Claim C2: invoking a connector with no connected callback returns
the bound method's return value unchanged; with a connected callback and
fixed arguments bound at connect time, a non-empty payload tuple makes
the callback receive the owner, the payload, then the fixed arguments,
and an empty payload tuple makes it receive the owner and the fixed
arguments alone. -/
theorem connector_call_spec {Owner V R : Type u}
    (owner : Owner) (name : String) (m : List V → List V)
    (cb : Owner → List V → R) (ud args : List V) :
    (ClassEventConnector.callEvent
      (⟨owner, name, m, none, []⟩ : ClassEventConnector Owner V R) args
        = Sum.inl (m args)) ∧
    (m args ≠ [] →
      (ClassEventConnector.connect
        (⟨owner, name, m, none, []⟩ : ClassEventConnector Owner V R) cb ud).callEvent args
          = Sum.inr (cb owner (m args ++ ud))) ∧
    (m args = [] →
      (ClassEventConnector.connect
        (⟨owner, name, m, none, []⟩ : ClassEventConnector Owner V R) cb ud).callEvent args
          = Sum.inr (cb owner ud)) := by
  refine ⟨rfl, fun h => ?_, fun h => ?_⟩
  · have : (m args).isEmpty = false := by
      cases hm : m args with
      | nil => exact absurd hm h
      | cons a l => rfl
    simp [ClassEventConnector.callEvent, ClassEventConnector.connect, this]
  · simp [ClassEventConnector.callEvent, ClassEventConnector.connect, h]

/-- Witness for C2: both branches of the invocation contract exercised
at concrete inputs (owner `"o"`, identity bound method, fixed argument
`7`, payload `[5]` respectively `[]`). -/
theorem connector_call_spec_witness :
    (ClassEventConnector.callEvent
      (⟨"o", "ev", fun l => l, none, []⟩ : ClassEventConnector String Nat (List Nat)) [5]
        = Sum.inl [5]) ∧
    (((fun l : List Nat => l) [5]) ≠ []) ∧
    ((ClassEventConnector.connect
      (⟨"o", "ev", fun l => l, none, []⟩ : ClassEventConnector String Nat (List Nat))
        (fun _ l => l) [7]).callEvent [5] = Sum.inr [5, 7]) ∧
    ((ClassEventConnector.connect
      (⟨"o", "ev", fun l => l, none, []⟩ : ClassEventConnector String Nat (List Nat))
        (fun _ l => l) [7]).callEvent [] = Sum.inr [7]) :=
  ⟨(connector_call_spec "o" "ev" (fun l => l) (fun _ l => l) [7] [5]).1,
   by decide,
   (connector_call_spec "o" "ev" (fun l => l) (fun _ l => l) [7] [5]).2.1 (by decide),
   (connector_call_spec "o" "ev" (fun l => l) (fun _ l => l) [7] []).2.2 rfl⟩

/-- Claim C3: applying `set(k, v)` twice in a row leaves the dictionary
(in particular its version) exactly as after the first call, and the
second call performs no mutation and fires no change notification. -/
theorem eventDictionary_set_twice_noop {V : Type u} [DecidableEq V]
    (d : EventDictionary V) (k : String) (v : V) :
    ((d.setItem k v).1.setItem k v).1 = (d.setItem k v).1 ∧
    ((d.setItem k v).1.setItem k v).2 = false := by
  have hget : assocGet (d.setItem k v).1.entries k = some v := by
    unfold EventDictionary.setItem
    cases h : assocGet d.entries k with
    | none => simpa [h] using assocGet_assocSet_self d.entries k v
    | some w =>
        by_cases hw : w = v
        · simp [h, hw]
        · simpa [h, hw] using assocGet_assocSet_self d.entries k v
  rw [setItem_present_noop _ k v hget]
  exact ⟨rfl, rfl⟩

/-- Claim C8: `delete` and `pop` on a missing key are silent no-ops —
no exception path exists, the dictionary (contents and version) is
unchanged, and no change notification fires. -/
theorem eventDictionary_missing_delete_pop_noop {V : Type u}
    (d : EventDictionary V) (k : String) (h : assocGet d.entries k = none) :
    d.delItem k = (d, false) ∧ d.popItem k = (d, false) := by
  unfold EventDictionary.delItem EventDictionary.popItem
  simp [h]

/-- Witness for C8 at a concrete dictionary and missing key. -/
theorem eventDictionary_missing_delete_pop_noop_witness :
    assocGet (⟨[("b", "x")], 3, 1⟩ : EventDictionary String).entries "a" = none ∧
    ((⟨[("b", "x")], 3, 1⟩ : EventDictionary String).delItem "a"
        = (⟨[("b", "x")], 3, 1⟩, false) ∧
     (⟨[("b", "x")], 3, 1⟩ : EventDictionary String).popItem "a"
        = (⟨[("b", "x")], 3, 1⟩, false)) :=
  ⟨by decide, eventDictionary_missing_delete_pop_noop _ "a" (by decide)⟩

/-- Counterexample to claim C9: `add_child` performs no type check on a
non-iterable value — a raw string (which is not a Node/Widget) is
accepted without any error and the child structures are mutated: the
children map gains the key and the render order records it. -/
theorem add_child_accepts_string_counterexample :
    childKeys ((tagNew "R" "div" "Tag").addChildVal "k" (.strv "hello")).children = ["k"] ∧
    ((tagNew "R" "div" "Tag").addChildVal "k" (.strv "hello")).core.renderList = ["k"] ∧
    childTextAt ((tagNew "R" "div" "Tag").addChildVal "k" (.strv "hello")) "k" = some "hello" ∧
    childKeys (tagNew "R" "div" "Tag").children = [] := by
  refine ⟨?_, ?_, ?_, ?_⟩ <;> decide

/-- Claim C9 as amended: `append` rejects every non-Widget (and
non-iterable) value with a `ValueError` raised before any mutation,
leaving the child structures unchanged; `add_child`, by contrast,
accepts such a value (a raw string) and stores it as a child. -/
theorem append_rejects_add_child_accepts (t : Tag) (s key : String) :
    (t.appendVal (.strv s) key).1 = t ∧
    (t.appendVal (.strv s) key).2
      = Except.error "value should be a Widget (otherwise use add_child(key,other)" ∧
    childLookup (t.addChildVal key (.strv s)).children key = some (.text s) := by
  refine ⟨rfl, rfl, ?_⟩
  unfold Tag.addChildVal Tag.addChild
  exact childLookup_setChild_text _ key s

/-- Claim C5: on the freshly built three-level tree (construction
leaves every node's maps changed), setting `x="1"` on the leaf `A` and
rendering the root `R` yields a dirty map whose only entry is `R` itself
(path `[]`) — the self-dirty root subsumes the dirty descendant — and
`R`'s cached markup reflects `A`'s new attribute value. -/
theorem render_root_subsumes_descendant :
    (Tag.repr 3 c5Mutated).2.2 = [([], (Tag.repr 3 c5Mutated).2.1)] ∧
    strHasSub (Tag.repr 3 c5Mutated).2.1 "x=\"1\"" = true ∧
    (Tag.repr 3 c5Mutated).2.1 = (Tag.repr 3 c5Mutated).1.core.backupRepr := by
  refine ⟨?_, ?_, ?_⟩ <;> decide

/-! ## Children map lemmas -/

theorem childLookup_childSet_ne :
    ∀ (m : ChildMap) (k : String) (c : Child) (k0 : String), k0 ≠ k →
      childLookup (childSet m k c) k0 = childLookup m k0
  | .nil, k, c, k0, h => by
      simp only [childSet, childLookup]
      rw [if_neg (fun hh => h hh.symm)]
  | .cons k' v rest, k, c, k0, h => by
      by_cases hk : k' = k
      · subst hk
        simp only [childSet, if_pos rfl, childLookup]
        rw [if_neg (fun hh => h hh.symm), if_neg (fun hh => h hh.symm)]
      · simp only [childSet, if_neg hk, childLookup]
        by_cases h0 : k' = k0
        · simp [h0]
        · simp [h0, childLookup_childSet_ne rest k c k0 h]

theorem mem_childKeys_iff :
    ∀ (m : ChildMap) (k : String), k ∈ childKeys m ↔ (childLookup m k).isSome = true
  | .nil, k => by simp [childKeys, childLookup]
  | .cons k' v rest, k => by
      by_cases h : k' = k
      · subst h
        simp [childKeys, childLookup]
      · simp only [childKeys, List.mem_cons, childLookup, if_neg h,
          mem_childKeys_iff rest k]
        constructor
        · rintro (hh | hh)
          · exact absurd hh.symm h
          · exact hh
        · exact Or.inr

/-- Key presence after `self.children[k] = c`: the written (or
equal-value-suppressed) key is present, all other keys are untouched. -/
theorem isSome_setChild (t : Tag) (k : String) (c : Child) (k0 : String) :
    (childLookup (t.setChild k c).1.children k0).isSome = true ↔
      ((childLookup t.children k0).isSome = true ∨ k0 = k) := by
  unfold Tag.setChild
  cases h : childLookup t.children k with
  | none =>
      by_cases h0 : k0 = k
      · subst h0
        simp [h, children_needUpdateLocal, childLookup_childSet_self]
      · simp [h, h0, children_needUpdateLocal, childLookup_childSet_ne t.children k c k0 h0]
  | some old =>
      by_cases he : childEq old c = true
      · by_cases h0 : k0 = k
        · subst h0
          simp [h, he]
        · simp [h, he, h0]
      · by_cases h0 : k0 = k
        · subst h0
          simp [h, he, children_needUpdateLocal, childLookup_childSet_self]
        · simp [h, he, h0, children_needUpdateLocal,
            childLookup_childSet_ne t.children k c k0 h0]

theorem renderList_setChild (t : Tag) (k : String) (c : Child) :
    (t.setChild k c).1.core.renderList = t.core.renderList := by
  unfold Tag.setChild
  cases h : childLookup t.children k with
  | none => simp [Tag.needUpdateLocal]; split <;> rfl
  | some old =>
      by_cases he : childEq old c = true
      · simp [h, he]
      · simp [h, he, Tag.needUpdateLocal]; split <;> rfl

theorem addChild_renderList (t : Tag) (key : String) (c : Child) :
    (t.addChild key c).core.renderList =
      (if childHasKey t.children key then t.core.renderList.erase key
       else t.core.renderList) ++ [key] := by
  unfold Tag.addChild
  rw [renderList_setChild]
  rfl

theorem addChild_lookup_isSome (t : Tag) (key : String) (c : Child) (k0 : String) :
    (childLookup (t.addChild key c).children k0).isSome = true ↔
      ((childLookup t.children k0).isSome = true ∨ k0 = key) := by
  unfold Tag.addChild
  exact isSome_setChild _ key _ k0

/-- Claim C6: adding child `A` under key `"a"` then a different child
`B` under the same key leaves exactly one `"a"` entry, mapped to `B`,
with `"a"` listed exactly once and last in the render order; and in
general `add_child` preserves the invariant that the render order and
the children keys coincide (with no duplicate render keys), moving a
re-added existing key to the end of the render order. -/
theorem add_child_rekey_spec :
    (childKeys c6Tree.children = ["a"] ∧ childIdentAt c6Tree "a" = some "B" ∧
     c6Tree.core.renderList = ["a"]) ∧
    (∀ (t : Tag) (key : String) (c : Child), WFchildren t →
      WFchildren (t.addChild key c) ∧
      (childHasKey t.children key = true →
        (t.addChild key c).core.renderList = t.core.renderList.erase key ++ [key])) := by
  constructor
  · refine ⟨?_, ?_, ?_⟩ <;> decide
  · intro t key c hwf
    obtain ⟨hw1, hw2, hw3⟩ := hwf
    have hrl := addChild_renderList t key c
    have hlook := addChild_lookup_isSome t key c
    refine ⟨⟨?_, ?_, ?_⟩, ?_⟩
    · -- every new render key is a child key
      intro k0 hk0
      rw [hrl, List.mem_append] at hk0
      unfold childHasKey
      rcases hk0 with hk0 | hk0
      · have hmem : k0 ∈ t.core.renderList := by
          by_cases hhas : childHasKey t.children key
          · rw [if_pos hhas] at hk0
            exact List.mem_of_mem_erase hk0
          · rwa [if_neg hhas] at hk0
        exact (hlook k0).2 (Or.inl (hw1 k0 hmem))
      · rw [List.mem_singleton] at hk0
        exact (hlook k0).2 (Or.inr hk0)
    · -- every new child key is a render key
      intro k0 hk0
      have hs := (mem_childKeys_iff _ k0).1 hk0
      rw [hrl, List.mem_append]
      rcases (hlook k0).1 hs with hs' | hs'
      · by_cases hko : k0 = key
        · exact Or.inr (by rw [List.mem_singleton]; exact hko)
        · have hmem : k0 ∈ t.core.renderList := hw2 k0 ((mem_childKeys_iff _ k0).2 hs')
          left
          by_cases hhas : childHasKey t.children key
          · rw [if_pos hhas]
            exact (List.mem_erase_of_ne hko).2 hmem
          · rwa [if_neg hhas]
      · exact Or.inr (by rw [List.mem_singleton]; exact hs')
    · -- no duplicate render keys
      rw [hrl]
      by_cases hhas : childHasKey t.children key
      · rw [if_pos hhas]
        refine List.Nodup.append (hw3.erase key) (List.nodup_singleton key) ?_
        rw [List.disjoint_singleton]
        intro hmem
        exact absurd rfl ((hw3.mem_erase_iff.1 hmem).1)
      · rw [if_neg hhas]
        refine List.Nodup.append hw3 (List.nodup_singleton key) ?_
        rw [List.disjoint_singleton]
        intro hmem
        exact hhas (hw1 key hmem)
    · -- a re-added existing key moves to the end
      intro hhas
      rw [hrl, if_pos hhas]

/-- Witness for C6's general part: the invariant is preserved when a
child is added to a fresh tag. -/
theorem add_child_rekey_spec_witness :
    WFchildren (tagNew "W" "div" "Tag") ∧
    WFchildren ((tagNew "W" "div" "Tag").addChild "z" (.text "x")) :=
  ⟨by decide,
   ((add_child_rekey_spec.2 (tagNew "W" "div" "Tag") "z" (.text "x") (by decide)).1)⟩

/-! ## Mutation bookkeeping lemmas -/

theorem setItem_fired {V : Type u} [DecidableEq V]
    (d : EventDictionary V) (k : String) (v : V)
    (h : assocGet d.entries k ≠ some v) :
    d.setItem k v = (⟨assocSet d.entries k v, d.version + 1, d.lastversion⟩, true) := by
  unfold EventDictionary.setItem
  cases hg : assocGet d.entries k with
  | none => rfl
  | some w =>
      have hw : w ≠ v := fun hw => h (hw ▸ hg)
      simp [hw]

theorem needUpdateLocal_style (t : Tag) (b : Bool) :
    (t.needUpdateLocal b).core.style = t.core.style := by
  unfold Tag.needUpdateLocal
  split <;> rfl

theorem needUpdateLocal_attributes (t : Tag) (b : Bool) :
    (t.needUpdateLocal b).core.attributes = t.core.attributes := by
  unfold Tag.needUpdateLocal
  split <;> rfl

theorem needUpdateLocal_ignoreUpdate (t : Tag) (b : Bool) :
    (t.needUpdateLocal b).core.ignoreUpdate = t.core.ignoreUpdate := by
  unfold Tag.needUpdateLocal
  split <;> rfl

theorem setStyle_fired (t : Tag) (k v : String)
    (h : assocGet t.core.style.entries k ≠ some v) :
    (t.setStyle k v).2 = true ∧
    (t.setStyle k v).1.core.style.version = t.core.style.version + 1 ∧
    (t.setStyle k v).1.core.style.entries = assocSet t.core.style.entries k v ∧
    (t.setStyle k v).1.core.ignoreUpdate = t.core.ignoreUpdate ∧
    (t.setStyle k v).1.core.attributes = t.core.attributes := by
  unfold Tag.setStyle
  simp only [setItem_fired t.core.style k v h]
  refine ⟨by trivial, ?_, ?_, ?_, ?_⟩ <;>
    simp [needUpdateLocal_style, needUpdateLocal_attributes, needUpdateLocal_ignoreUpdate,
      Tag.withCore]

theorem setAttr_fired (t : Tag) (k : String) (v : Option String)
    (h : assocGet t.core.attributes.entries k ≠ some v) :
    (t.setAttr k v).2 = true ∧
    (t.setAttr k v).1.core.attributes.version = t.core.attributes.version + 1 ∧
    (t.setAttr k v).1.core.attributes.entries = assocSet t.core.attributes.entries k v ∧
    (t.setAttr k v).1.core.ignoreUpdate = t.core.ignoreUpdate ∧
    (t.setAttr k v).1.core.style = t.core.style := by
  unfold Tag.setAttr
  simp only [setItem_fired t.core.attributes k v h]
  refine ⟨by trivial, ?_, ?_, ?_, ?_⟩ <;>
    simp [needUpdateLocal_style, needUpdateLocal_attributes, needUpdateLocal_ignoreUpdate,
      Tag.withCore]

/-- Claim C7: with refresh disabled, three style mutations reach the
parent zero times; after re-enabling, one attribute mutation reaches it
exactly once — while the suppressed mutations still incremented the
style map's version by three (and the attribute map's by one). -/
theorem batched_refresh_single_propagation (a : Tag) (k1 v1 k2 v2 k3 v3 ka va : String)
    (h1 : assocGet a.core.style.entries k1 ≠ some v1)
    (h2 : assocGet (c7State1 a k1 v1).1.core.style.entries k2 ≠ some v2)
    (h3 : assocGet (c7State2 a k1 v1 k2 v2).1.core.style.entries k3 ≠ some v3)
    (h4 : assocGet (c7State3 a k1 v1 k2 v2 k3 v3).1.core.attributes.entries ka
      ≠ some (some va)) :
    (c7State4 a k1 v1 k2 v2 k3 v3 ka va).2 = 1 ∧
    (c7State4 a k1 v1 k2 v2 k3 v3 ka va).1.core.style.version
      = a.core.style.version + 3 ∧
    (c7State4 a k1 v1 k2 v2 k3 v3 ka va).1.core.attributes.version
      = a.core.attributes.version + 1 := by
  obtain ⟨f1, sv1, se1, ig1, at1⟩ := setStyle_fired (a.disableRefresh) k1 v1 h1
  obtain ⟨f2, sv2, se2, ig2, at2⟩ :=
    setStyle_fired ((a.disableRefresh).setStyle k1 v1).1 k2 v2 h2
  obtain ⟨f3, sv3, se3, ig3, at3⟩ :=
    setStyle_fired (((a.disableRefresh).setStyle k1 v1).1.setStyle k2 v2).1 k3 v3 h3
  obtain ⟨f4, av4, ae4, ig4, st4⟩ :=
    setAttr_fired
      ((((a.disableRefresh).setStyle k1 v1).1.setStyle k2 v2).1.setStyle k3 v3).1.enableRefresh
      ka (some va) h4
  have c0ig : (a.disableRefresh).core.ignoreUpdate = true := rfl
  have hs1 : (c7State1 a k1 v1).1 = ((a.disableRefresh).setStyle k1 v1).1 := rfl
  have hs2 : (c7State2 a k1 v1 k2 v2).1
      = (((a.disableRefresh).setStyle k1 v1).1.setStyle k2 v2).1 := rfl
  have hs3 : (c7State3 a k1 v1 k2 v2 k3 v3).1
      = ((((a.disableRefresh).setStyle k1 v1).1.setStyle k2 v2).1.setStyle k3 v3).1 := rfl
  have hs4 : (c7State4 a k1 v1 k2 v2 k3 v3 ka va).1
      = (((((a.disableRefresh).setStyle k1 v1).1.setStyle k2 v2).1.setStyle
          k3 v3).1.enableRefresh.setAttr ka (some va)).1 := rfl
  have c1 : (c7State1 a k1 v1).2 = 0 := by
    simp only [c7State1, c7State0, countingStep, c0ig]
    simp
  have c2 : (c7State2 a k1 v1 k2 v2).2 = 0 := by
    simp only [c7State2, countingStep, c1, hs1, ig1, c0ig]
    simp
  have c3 : (c7State3 a k1 v1 k2 v2 k3 v3).2 = 0 := by
    simp only [c7State3, countingStep, c2, hs2, ig2, ig1, c0ig]
    simp
  have hef : ∀ t : Tag, t.enableRefresh.core.ignoreUpdate = false := fun _ => rfl
  have hes : ∀ t : Tag, t.enableRefresh.core.style = t.core.style := fun _ => rfl
  have hea : ∀ t : Tag, t.enableRefresh.core.attributes = t.core.attributes := fun _ => rfl
  have hds : (a.disableRefresh).core.style.version = a.core.style.version := rfl
  have hda : (a.disableRefresh).core.attributes = a.core.attributes := rfl
  refine ⟨?_, ?_, ?_⟩
  · simp only [c7State4, countingStep]
    simp only [c3, hs3, f4, hef]
    simp
  · rw [hs4, st4, hes, sv3, sv2, sv1, hds]
  · rw [hs4, av4, hea, at3, at2, at1, hda]

/-- Witness for C7 at a concrete node and fresh style/attribute keys. -/
theorem batched_refresh_single_propagation_witness :
    (assocGet (tagNew "A" "div" "Tag").core.style.entries "s1" ≠ some "1" ∧
     assocGet (c7State1 (tagNew "A" "div" "Tag") "s1" "1").1.core.style.entries "s2"
       ≠ some "1" ∧
     assocGet (c7State2 (tagNew "A" "div" "Tag") "s1" "1" "s2" "1").1.core.style.entries "s3"
       ≠ some "1" ∧
     assocGet (c7State3 (tagNew "A" "div" "Tag") "s1" "1" "s2" "1" "s3"
       "1").1.core.attributes.entries "x" ≠ some (some "1")) ∧
    ((c7State4 (tagNew "A" "div" "Tag") "s1" "1" "s2" "1" "s3" "1" "x" "1").2 = 1 ∧
     (c7State4 (tagNew "A" "div" "Tag") "s1" "1" "s2" "1" "s3" "1" "x" "1").1.core.style.version
       = (tagNew "A" "div" "Tag").core.style.version + 3 ∧
     (c7State4 (tagNew "A" "div" "Tag") "s1" "1" "s2" "1" "s3" "1" "x"
       "1").1.core.attributes.version
       = (tagNew "A" "div" "Tag").core.attributes.version + 1) :=
  ⟨⟨by decide, by decide, by decide, by decide⟩,
   batched_refresh_single_propagation (tagNew "A" "div" "Tag") "s1" "1" "s2" "1" "s3" "1"
     "x" "1" (by decide) (by decide) (by decide) (by decide)⟩

/-- Claim C10 (implicit behaviour): when a mutation leaves the mutated
map empty — deleting the only style key, or clearing the attributes —
the change notification passes the now-empty dictionary as emitter,
which tests false, so the cached `_repr_attributes` is not recomputed;
yet the map's version is incremented and the upward propagation call
still reaches the parent. -/
theorem emptying_mutation_keeps_stale_attributes (t : Tag) (k v : String)
    (hst : t.core.style.entries = [(k, v)])
    (hig : t.core.ignoreUpdate = false) :
    ((countingStep true (fun u => u.delStyle k) (t, 0)).1.core.reprAttributes
        = t.core.reprAttributes ∧
     (countingStep true (fun u => u.delStyle k) (t, 0)).1.core.style.version
        = t.core.style.version + 1 ∧
     (countingStep true (fun u => u.delStyle k) (t, 0)).1.core.style.entries = [] ∧
     (countingStep true (fun u => u.delStyle k) (t, 0)).2 = 1) ∧
    ((countingStep true Tag.clearAttrs (t, 0)).1.core.reprAttributes
        = t.core.reprAttributes ∧
     (countingStep true Tag.clearAttrs (t, 0)).1.core.attributes.version
        = t.core.attributes.version + 1 ∧
     (countingStep true Tag.clearAttrs (t, 0)).1.core.attributes.entries = [] ∧
     (countingStep true Tag.clearAttrs (t, 0)).2 = 1) := by
  have hdel : t.core.style.delItem k
      = (⟨[], t.core.style.version + 1, t.core.style.lastversion⟩, true) := by
    unfold EventDictionary.delItem
    rw [hst]
    simp [assocGet, assocRemove]
  have hd1 : t.delStyle k = (t.withCore (fun c =>
      { c with style := ⟨[], t.core.style.version + 1, t.core.style.lastversion⟩ }), true) := by
    unfold Tag.delStyle
    simp only [hdel]
    simp [Tag.needUpdateLocal]
  have hd2 : t.clearAttrs = (t.withCore (fun c =>
      { c with attributes :=
          ⟨[], t.core.attributes.version + 1, t.core.attributes.lastversion⟩ }), true) := by
    unfold Tag.clearAttrs
    simp [Tag.needUpdateLocal, EventDictionary.clearAll]
  constructor
  · refine ⟨?_, ?_, ?_, ?_⟩
    · simp only [countingStep, hd1]
      rfl
    · simp only [countingStep, hd1]
      rfl
    · simp only [countingStep, hd1]
      rfl
    · simp only [countingStep, hd1, hig]
      simp
  · refine ⟨?_, ?_, ?_, ?_⟩
    · simp only [countingStep, hd2]
      rfl
    · simp only [countingStep, hd2]
      rfl
    · simp only [countingStep, hd2]
      rfl
    · simp only [countingStep, hd2, hig]
      simp

/-- Witness for C10: a concrete tag whose style holds exactly one key. -/
theorem emptying_mutation_keeps_stale_attributes_witness :
    (((tagNew "T" "div" "Tag").setStyle "s" "1").1.core.style.entries = [("s", "1")] ∧
     ((tagNew "T" "div" "Tag").setStyle "s" "1").1.core.ignoreUpdate = false) ∧
    ((countingStep true (fun u => u.delStyle "s")
        (((tagNew "T" "div" "Tag").setStyle "s" "1").1, 0)).2 = 1 ∧
     (countingStep true Tag.clearAttrs
        (((tagNew "T" "div" "Tag").setStyle "s" "1").1, 0)).1.core.reprAttributes
       = ((tagNew "T" "div" "Tag").setStyle "s" "1").1.core.reprAttributes) :=
  ⟨⟨by decide, by decide⟩,
   ⟨(emptying_mutation_keeps_stale_attributes
       ((tagNew "T" "div" "Tag").setStyle "s" "1").1 "s" "1" (by decide) (by decide)).1.2.2.2,
    (emptying_mutation_keeps_stale_attributes
       ((tagNew "T" "div" "Tag").setStyle "s" "1").1 "s" "1" (by decide) (by decide)).2.1⟩⟩

/-! ## Dirty-map structure lemmas -/

theorem pathLe_cons {a b : String} {x y : List String} (h : pathLe (a :: x) (b :: y) = true) :
    a = b ∧ pathLe x y = true := by
  simpa [pathLe, Bool.and_eq_true] using h

/-- Every dirty record produced by the child loop comes from rendering
the `Tag` child stored (in the original dictionary) under the first
path component. -/
theorem reprKeys_dirty_mem (rend : Tag → Tag × String × List (List String × String)) :
    ∀ (keys : List String) (orig acc : ChildMap)
      (pr : List String × String), pr ∈ (reprKeys rend keys orig acc).2.2 →
      ∃ k ct p, pr.1 = k :: p ∧ childLookup orig k = some (.node ct) ∧
        (p, pr.2) ∈ (rend ct).2.2
  | [], _, _, pr => by simp [reprKeys]
  | k :: ks, orig, acc, pr => by
      intro hmem
      unfold reprKeys at hmem
      cases hl : childLookup orig k with
      | none =>
          rw [hl] at hmem
          exact reprKeys_dirty_mem rend ks orig acc pr hmem
      | some c =>
          cases c with
          | text s =>
              rw [hl] at hmem
              exact reprKeys_dirty_mem rend ks orig acc pr hmem
          | node ct =>
              rw [hl] at hmem
              simp only [List.mem_append, List.mem_map] at hmem
              rcases hmem with ⟨q, hq, hqe⟩ | hmem
              · refine ⟨k, ct, q.1, ?_, hl, ?_⟩
                · rw [← hqe]
                · rw [← hqe]
                  exact hq
              · exact reprKeys_dirty_mem rend ks orig
                  (childUpdate acc k (.node (rend ct).1)) pr hmem

theorem repr_dirty_changed (n : Nat) (t : Tag) (h : tagIschangedCore t.core = true) :
    (Tag.repr (n + 1) t).2.2 = [([], (Tag.repr (n + 1) t).2.1)] := by
  simp only [Tag.repr, h]
  simp

theorem repr_dirty_unchanged (n : Nat) (t : Tag) (h : tagIschangedCore t.core = false) :
    (Tag.repr (n + 1) t).2.2
      = (reprKeys (Tag.repr n) t.core.renderList t.children t.children).2.2 := by
  simp only [Tag.repr, h]
  simp

/-- Claim C1: for every render pass, at any node and any starting state,
the returned dirty map never contains both a node and a strict ancestor
of that node — a self-dirty node records only itself and discards its
descendants' records. -/
theorem render_dirty_map_ancestor_free : ∀ (n : Nat) (t : Tag),
    ancestorFree (Tag.repr n t).2.2 := by
  intro n
  induction n with
  | zero =>
      intro t p s q r hp _ _
      simp [Tag.repr] at hp
  | succ n ih =>
      intro t p s q r hp hq hle
      by_cases hch : tagIschangedCore t.core = true
      · rw [repr_dirty_changed n t hch] at hp hq
        simp only [List.mem_singleton, Prod.mk.injEq] at hp hq
        rw [hp.1, hq.1]
      · rw [repr_dirty_unchanged n t (Bool.eq_false_iff.2 hch)] at hp hq
        obtain ⟨k1, ct1, p1, hpe, hl1, hm1⟩ :=
          reprKeys_dirty_mem (Tag.repr n) t.core.renderList t.children t.children _ hp
        obtain ⟨k2, ct2, p2, hqe, hl2, hm2⟩ :=
          reprKeys_dirty_mem (Tag.repr n) t.core.renderList t.children t.children _ hq
        dsimp only at hpe hqe hm1 hm2
        subst hpe
        subst hqe
        obtain ⟨hk, hle'⟩ := pathLe_cons hle
        subst hk
        rw [hl1] at hl2
        have hct : ct1 = ct2 := by
          injection hl2 with h'
          injection h'
        subst hct
        rw [ih ct1 p1 s p2 r hm1 hm2 hle']

/-! ## In-place child update lemmas -/

theorem childUpdate_self :
    ∀ (m : ChildMap) (k : String) (v : Child),
      childLookup m k = some v → childUpdate m k v = m
  | .nil, k, v => by simp [childLookup]
  | .cons k' w rest, k, v => by
      intro h
      by_cases hk : k' = k
      · unfold childLookup at h
        rw [if_pos hk] at h
        unfold childUpdate
        rw [if_pos hk]
        injection h with h'
        rw [h']
      · unfold childLookup at h
        rw [if_neg hk] at h
        unfold childUpdate
        rw [if_neg hk, childUpdate_self rest k v h]

theorem childLookup_childUpdate_self :
    ∀ (m : ChildMap) (k : String) (v : Child),
      (childLookup m k).isSome = true → childLookup (childUpdate m k v) k = some v
  | .nil, k, v => by simp [childLookup]
  | .cons k' w rest, k, v => by
      intro h
      by_cases hk : k' = k
      · unfold childUpdate
        rw [if_pos hk]
        unfold childLookup
        rw [if_pos hk]
      · unfold childLookup at h
        rw [if_neg hk] at h
        unfold childUpdate
        rw [if_neg hk]
        unfold childLookup
        rw [if_neg hk]
        exact childLookup_childUpdate_self rest k v h

theorem childLookup_childUpdate_ne :
    ∀ (m : ChildMap) (k : String) (v : Child) (k0 : String), k0 ≠ k →
      childLookup (childUpdate m k v) k0 = childLookup m k0
  | .nil, _, _, _ => fun _ => rfl
  | .cons k' w rest, k, v, k0 => by
      intro h
      by_cases hk : k' = k
      · subst hk
        unfold childUpdate
        rw [if_pos rfl]
        unfold childLookup
        rw [if_neg (fun hh => h hh.symm), if_neg (fun hh => h hh.symm)]
      · unfold childUpdate
        rw [if_neg hk]
        unfold childLookup
        by_cases h0 : k' = k0
        · rw [if_pos h0, if_pos h0]
        · rw [if_neg h0, if_neg h0]
          exact childLookup_childUpdate_ne rest k v k0 h

theorem isSome_childUpdate :
    ∀ (m : ChildMap) (k : String) (v : Child) (k0 : String),
      (childLookup (childUpdate m k v) k0).isSome = (childLookup m k0).isSome
  | .nil, _, _, _ => rfl
  | .cons k' w rest, k, v, k0 => by
      by_cases hk : k' = k
      · subst hk
        unfold childUpdate
        rw [if_pos rfl]
        unfold childLookup
        by_cases h0 : k' = k0
        · rw [if_pos h0, if_pos h0]
          rfl
        · rw [if_neg h0, if_neg h0]
      · unfold childUpdate
        rw [if_neg hk]
        unfold childLookup
        by_cases h0 : k' = k0
        · rw [if_pos h0, if_pos h0]
        · rw [if_neg h0, if_neg h0]
          exact isSome_childUpdate rest k v k0

/-! ## Final-state lemmas for the child render loop -/

theorem reprKeys_lookup_notmem (rend : Tag → Tag × String × List (List String × String)) :
    ∀ (keys : List String) (orig acc : ChildMap) (k : String), k ∉ keys →
      childLookup (reprKeys rend keys orig acc).1 k = childLookup acc k := by
  intro keys
  induction keys with
  | nil => intro orig acc k _; rfl
  | cons k' ks ih =>
      intro orig acc k hk
      have hk1 : k ≠ k' := fun h => hk (h ▸ List.mem_cons_self k' ks)
      have hk2 : k ∉ ks := fun h => hk (List.mem_cons_of_mem _ h)
      unfold reprKeys
      cases hl : childLookup orig k' with
      | none => exact ih orig acc k hk2
      | some c =>
          cases c with
          | text s => exact ih orig acc k hk2
          | node ct =>
              show childLookup (reprKeys rend ks orig
                (childUpdate acc k' (.node (rend ct).1))).1 k = childLookup acc k
              rw [ih orig _ k hk2, childLookup_childUpdate_ne acc k' _ k hk1]

theorem reprKeys_lookup_node (rend : Tag → Tag × String × List (List String × String)) :
    ∀ (keys : List String) (orig acc : ChildMap) (k : String) (ct : Tag),
      childLookup orig k = some (.node ct) → k ∈ keys →
      (childLookup acc k).isSome = true →
      childLookup (reprKeys rend keys orig acc).1 k = some (.node (rend ct).1) := by
  intro keys
  induction keys with
  | nil => intro _ _ _ _ _ h _; exact absurd h (List.not_mem_nil _)
  | cons k' ks ih =>
      intro orig acc k ct hl hmem hsome
      unfold reprKeys
      by_cases hk : k' = k
      · subst hk
        rw [hl]
        by_cases hks : k' ∈ ks
        · refine ih orig _ k' ct hl hks ?_
          rw [childLookup_childUpdate_self acc k' _ hsome]
          rfl
        · rw [reprKeys_lookup_notmem rend ks orig _ k' hks,
            childLookup_childUpdate_self acc k' _ hsome]
      · have hks : k ∈ ks := by
          rcases List.mem_cons.1 hmem with h | h
          · exact absurd h.symm hk
          · exact h
        cases hl' : childLookup orig k' with
        | none => exact ih orig acc k ct hl hks hsome
        | some c =>
            cases c with
            | text s => exact ih orig acc k ct hl hks hsome
            | node ct' =>
                refine ih orig _ k ct hl hks ?_
                rw [childLookup_childUpdate_ne acc k' _ k (fun hh => hk hh.symm)]
                exact hsome

theorem reprKeys_lookup_other (rend : Tag → Tag × String × List (List String × String)) :
    ∀ (keys : List String) (orig acc : ChildMap) (k : String),
      (childLookup orig k = none ∨ ∃ s, childLookup orig k = some (.text s)) →
      childLookup (reprKeys rend keys orig acc).1 k = childLookup acc k := by
  intro keys
  induction keys with
  | nil => intro _ _ _ _; rfl
  | cons k' ks ih =>
      intro orig acc k h
      unfold reprKeys
      cases hl' : childLookup orig k' with
      | none => exact ih orig acc k h
      | some c =>
          cases c with
          | text s => exact ih orig acc k h
          | node ct =>
              have hk : k ≠ k' := by
                intro he
                subst he
                rcases h with h | ⟨s, h⟩ <;> rw [h] at hl' <;> simp at hl'
              show childLookup (reprKeys rend ks orig
                (childUpdate acc k' (.node (rend ct).1))).1 k = childLookup acc k
              rw [ih orig _ k h, childLookup_childUpdate_ne acc k' _ k hk]

theorem reprKeys_clean_id (rend : Tag → Tag × String × List (List String × String))
    (orig : ChildMap) :
    ∀ (keys : List String),
      (∀ k ct, k ∈ keys → childLookup orig k = some (.node ct) →
        (rend ct).1 = ct ∧ (rend ct).2.2 = []) →
      (reprKeys rend keys orig orig).1 = orig ∧ (reprKeys rend keys orig orig).2.2 = [] := by
  intro keys
  induction keys with
  | nil => intro _; exact ⟨rfl, rfl⟩
  | cons k' ks ih =>
      intro h
      have htail := ih (fun k ct hk hl => h k ct (List.mem_cons_of_mem _ hk) hl)
      unfold reprKeys
      cases hl : childLookup orig k' with
      | none => exact htail
      | some c =>
          cases c with
          | text s => exact htail
          | node ct =>
              obtain ⟨hct, hd⟩ := h k' ct (List.mem_cons_self k' ks) hl
              have hupd : childUpdate orig k' (.node (rend ct).1) = orig := by
                rw [hct]
                exact childUpdate_self orig k' (.node ct) hl
              constructor
              · show (reprKeys rend ks orig (childUpdate orig k' (.node (rend ct).1))).1 = orig
                rw [hupd]
                exact htail.1
              · show (rend ct).2.2.map (fun pr => (k' :: pr.1, pr.2)) ++
                  (reprKeys rend ks orig (childUpdate orig k' (.node (rend ct).1))).2.2 = []
                rw [hd, hupd]
                simp [htail.2]

/-! ## Render-pass state lemmas -/

/-- `repr` always returns the (possibly recomputed) `_backup_repr` it
stores on the node. -/
theorem repr_markup (n : Nat) (t : Tag) :
    (Tag.repr (n + 1) t).2.1 = (Tag.repr (n + 1) t).1.core.backupRepr := by
  simp only [Tag.repr]
  split <;> rfl

/-- After a render step the node's own three maps are aligned: either
the node was dirty and `_set_updated` ran, or it was already clean. -/
theorem repr_result_clean_self (n : Nat) (t : Tag) :
    tagIschangedCore (Tag.repr (n + 1) t).1.core = false := by
  simp only [Tag.repr]
  split
  · next h =>
      simp [tagIschangedCore, EventDictionary.ischanged, EventDictionary.alignVersion]
  · next h =>
      have h' : tagIschangedCore t.core = false := Bool.eq_false_iff.2 h
      simpa [tagIschangedCore, EventDictionary.ischanged] using h'

theorem repr_result_renderList (n : Nat) (t : Tag) :
    (Tag.repr (n + 1) t).1.core.renderList = t.core.renderList := by
  simp only [Tag.repr]
  split <;> rfl

theorem repr_result_children (n : Nat) (t : Tag) :
    (Tag.repr (n + 1) t).1.children
      = (reprKeys (Tag.repr n) t.core.renderList t.children t.children).1 := by
  simp only [Tag.repr]
  split <;> rfl

/-- A render step over the unchanged branch returns the cached markup,
the identity children update, and no dirty records. -/
theorem repr_unchanged_eq (n : Nat) (t : Tag) (h : tagIschangedCore t.core = false)
    (hd : (reprKeys (Tag.repr n) t.core.renderList t.children t.children).2.2 = []) :
    Tag.repr (n + 1) t =
      (Tag.mk t.core (reprKeys (Tag.repr n) t.core.renderList t.children t.children).1,
       t.core.backupRepr, []) := by
  simp only [Tag.repr, h, hd]
  simp

/-- Rendering a tree whose visited part is clean changes nothing: the
tree is returned as is, together with its cached markup and an empty
dirty map (regardless of remaining fuel — an out-of-fuel child render
also changes nothing on a clean child). -/
theorem repr_clean_succ : ∀ (n : Nat) (u : Tag), VisitedClean u →
    Tag.repr (n + 1) u = (u, u.core.backupRepr, []) := by
  intro n
  induction n with
  | zero =>
      intro u hvc
      cases hvc with
      | intro core ch hself hkids =>
          obtain ⟨i1, i2⟩ := reprKeys_clean_id (Tag.repr 0) ch core.renderList
            (fun k ct _ _ => ⟨rfl, rfl⟩)
          rw [repr_unchanged_eq 0 (Tag.mk core ch) hself i2]
          simp only [Tag.core_mk, Tag.children_mk]
          rw [i1]
  | succ n ih =>
      intro u hvc
      cases hvc with
      | intro core ch hself hkids =>
          obtain ⟨i1, i2⟩ := reprKeys_clean_id (Tag.repr (n + 1)) ch core.renderList
            (fun k ct hk hl => by
              have e := ih ct (hkids k ct hk hl)
              constructor
              · rw [e]
              · rw [e])
          rw [repr_unchanged_eq (n + 1) (Tag.mk core ch) hself i2]
          simp only [Tag.core_mk, Tag.children_mk]
          rw [i1]

/-- With enough fuel, every node visited by the render pass comes out
clean. -/
theorem repr_visitedClean : ∀ (n : Nat) (t : Tag), reprComplete n t = true →
    VisitedClean (Tag.repr n t).1 := by
  intro n
  induction n with
  | zero =>
      intro t h
      exact absurd h (by simp [reprComplete])
  | succ n ih =>
      intro t hrc
      have hall : ∀ k ∈ t.core.renderList,
          (match childLookup t.children k with
           | some (.node ct) => reprComplete n ct
           | _ => true) = true := by
        intro k hk
        exact List.all_eq_true.1 (by simpa [reprComplete] using hrc) k hk
      cases hu : (Tag.repr (n + 1) t).1 with
      | mk core' ch' =>
          have hcs := repr_result_clean_self n t
          rw [hu] at hcs
          have hrl := repr_result_renderList n t
          rw [hu] at hrl
          have hch := repr_result_children n t
          rw [hu] at hch
          simp only [Tag.core_mk] at hcs hrl
          simp only [Tag.children_mk] at hch
          refine VisitedClean.intro core' ch' hcs ?_
          intro k ct' hk hl
          rw [hrl] at hk
          rw [hch] at hl
          cases hlo : childLookup t.children k with
          | some c =>
              cases c with
              | node ct =>
                  have hfin := reprKeys_lookup_node (Tag.repr n) t.core.renderList
                    t.children t.children k ct hlo hk (by rw [hlo]; rfl)
                  rw [hfin] at hl
                  have hct : ct' = (Tag.repr n ct).1 := by
                    injection hl with h'
                    injection h' with h''
                    exact h''.symm
                  rw [hct]
                  refine ih ct ?_
                  have hone := hall k hk
                  rw [hlo] at hone
                  exact hone
              | text s =>
                  have hfin := reprKeys_lookup_other (Tag.repr n) t.core.renderList
                    t.children t.children k (Or.inr ⟨s, hlo⟩)
                  rw [hfin, hlo] at hl
                  simp at hl
          | none =>
              have hfin := reprKeys_lookup_other (Tag.repr n) t.core.renderList
                t.children t.children k (Or.inl hlo)
              rw [hfin, hlo] at hl
              simp at hl

/-- Claim C4: with enough fuel for the tree, a render pass leaves every
visited node clean, and an immediately repeated render with no
intervening mutation returns the tree unchanged, an empty dirty map and
markup identical to the first pass. -/
theorem render_clean_then_idempotent (t : Tag) (n : Nat) (h : reprComplete n t = true) :
    VisitedClean (Tag.repr n t).1 ∧
    Tag.repr n (Tag.repr n t).1 = ((Tag.repr n t).1, (Tag.repr n t).2.1, []) := by
  have h1 := repr_visitedClean n t h
  refine ⟨h1, ?_⟩
  cases n with
  | zero => exact absurd h (by simp [reprComplete])
  | succ m =>
      rw [repr_clean_succ m (Tag.repr (m + 1) t).1 h1, repr_markup m t]

/-- Witness for C4 on the concrete three-level tree. -/
theorem render_clean_then_idempotent_witness :
    reprComplete 3 c5Root = true ∧
    (VisitedClean (Tag.repr 3 c5Root).1 ∧
     Tag.repr 3 (Tag.repr 3 c5Root).1
       = ((Tag.repr 3 c5Root).1, (Tag.repr 3 c5Root).2.1, [])) :=
  ⟨by decide, render_clean_then_idempotent c5Root 3 (by decide)⟩
